import Mathlib

/-!
# Verification of the Dominator template compiler

A shallow embedding of the compiler pipeline of the `dominator` repository:
the tokenizer and parser (`src/compiler/parser.ts`), the SSA builder with its
three optimization passes (`src/compiler/ssa.ts`), and the code generator
(`src/compiler/codegen.ts`).  Each definition mirrors one function of the
TypeScript source.

Modelling conventions:
* JavaScript strings are Lean `String`s; the cursor-based tokenizer state
  (`source`, `pos`, `line`, `column`) is the structure `TokSt`.
* `this.source[this.pos++]` past the end of the string yields `undefined` in
  JavaScript; reading is modelled as `Option Char` (`none` = `undefined`),
  and `advance` still increments `pos` in that case, exactly as the source.
* Loops that are bounded because their condition requires `pos < length`
  are written with a structural counter initialised to `length - pos`
  (when the counter is 0 the loop condition is false anyway, so the early
  return is semantics-preserving).  The two loops whose conditions do not
  check `pos` (the attribute loop of `readOpenTag` and the brace scan of
  `readAttribute`) take the caller-supplied fuel; returning `none` means
  the loop has not finished within `fuel` iterations.
* A JavaScript `Map` / plain object in insertion order is an association
  list; `Map.set` / `obj[k] = v` is `setAssoc` (update in place, else
  append), `Map.get`/`Map.has` is `List.lookup`.
* The tokenizer stores an open tag's payload as `JSON.stringify({tag,
  attributes})` and the parser immediately `JSON.parse`s it back; this
  round-trip is the identity on the data, so the token payload is kept
  structured (`TokValue.tag`).
-/

set_option maxRecDepth 100000

namespace Dominator

/-- The character class of JavaScript's `/\s/` for the ASCII range. -/
def jsWS (c : Char) : Bool :=
  c = ' ' || c = '\t' || c = '\n' || c = '\r' || c = '\x0b' || c = '\x0c'

/-- `/[a-zA-Z0-9_-]/`, the tag- and attribute-name character class. -/
def isIdentChar (c : Char) : Bool :=
  c.isAlpha || c.isDigit || c = '_' || c = '-'

/-- `/[a-zA-Z0-9_]/`, the bare attribute-value character class. -/
def isBareChar (c : Char) : Bool :=
  c.isAlpha || c.isDigit || c = '_'

/-- JavaScript `String.prototype.trim` on a character list. -/
def jsTrim (l : List Char) : List Char :=
  ((l.dropWhile jsWS).reverse.dropWhile jsWS).reverse

def jsTrimStr (s : String) : String := ⟨jsTrim s.data⟩

/-- First-match association lookup wrapper (JavaScript `Map.get`). -/
def lookupA {β : Type} (m : List (String × β)) (k : String) : Option β :=
  List.lookup k m

/-- JavaScript `Map.set` / `obj[k] = v`: replace in place, else append. -/
def setAssoc {β : Type} (m : List (String × β)) (k : String) (v : β) :
    List (String × β) :=
  if (List.lookup k m).isSome then
    m.map (fun p => if p.1 = k then (k, v) else p)
  else m ++ [(k, v)]

/-- An attribute value: a string literal, or the boolean `true` for a bare
attribute (`readAttribute` produces no other value shape). -/
inductive AttrVal where
  | s (v : String)
  | b (v : Bool)
deriving DecidableEq, Repr

/-- Source locations as `getLocation` builds them (start = end = cursor). -/
structure Loc where
  startLine : Nat
  startCol : Nat
  endLine : Nat
  endCol : Nat
deriving DecidableEq, Repr

/-- Token kinds (`open`/`selfClose`/`close`/`text`/`expr`/`eof`; `open` is a
Lean keyword, hence the `t` prefixes). -/
inductive TokType where
  | tOpen
  | tSelfClose
  | tClose
  | tText
  | tExpr
  | tEof
deriving DecidableEq, Repr

/-- A token payload: plain string, or the structured form of the
`JSON.stringify({tag, attributes})` payload of open tags. -/
inductive TokValue where
  | str (s : String)
  | tag (tagName : String) (attrs : List (String × AttrVal))
deriving DecidableEq, Repr

structure Token where
  type : TokType
  value : TokValue
  loc : Loc
deriving DecidableEq, Repr

/-- Tokenizer state: the trimmed source and the cursor fields. -/
structure TokSt where
  src : List Char
  pos : Nat
  line : Nat
  col : Nat
deriving DecidableEq, Repr

namespace TokSt

/-- `peek()`: the current character, `none` for JavaScript's `''`. -/
def peek (st : TokSt) : Option Char := st.src.get? st.pos

/-- `advance()`: returns the character (possibly `undefined` = `none`) and
always increments `pos`; the column/line bookkeeping follows the source
(`char === '\n'` is false for `undefined`, so the column still increments). -/
def advance (st : TokSt) : Option Char × TokSt :=
  let c := st.src.get? st.pos
  if c = some '\n' then
    (c, { st with pos := st.pos + 1, line := st.line + 1, col := 1 })
  else
    (c, { st with pos := st.pos + 1, col := st.col + 1 })

/-- The state after `advance()`. -/
def adv (st : TokSt) : TokSt := (st.advance).2

def getLoc (st : TokSt) : Loc :=
  { startLine := st.line, startCol := st.col, endLine := st.line, endCol := st.col }

end TokSt

/-- The loop of `skipWhitespace` (bounded: its condition requires
`pos < length`). -/
def skipWSGo : Nat → TokSt → TokSt
  | 0, st => st
  | f + 1, st =>
    match st.src.get? st.pos with
    | some c => if jsWS c then skipWSGo f st.adv else st
    | none => st

def TokSt.skipWS (st : TokSt) : TokSt := skipWSGo (st.src.length - st.pos) st

/-- JavaScript string coercion of an `advance()` result (`'' + undefined`
is `"undefined"`; only relevant inside a loop that never terminates). -/
def charToJsStr : Option Char → String
  | some c => String.singleton c
  | none => "undefined"

/-- The identifier loop shared by `readOpenTag` (tag name) and
`readAttribute` (attribute name). -/
def readIdentGo : Nat → TokSt → String → String × TokSt
  | 0, st, acc => (acc, st)
  | f + 1, st, acc =>
    match st.src.get? st.pos with
    | some c => if isIdentChar c then readIdentGo f st.adv (acc.push c) else (acc, st)
    | none => (acc, st)

def readIdent (st : TokSt) : String × TokSt :=
  readIdentGo (st.src.length - st.pos) st ""

/-- The quoted-value loop of `readAttribute` (`while (peek && peek !== quote)`). -/
def readQuotedGo (q : Char) : Nat → TokSt → String → String × TokSt
  | 0, st, acc => (acc, st)
  | f + 1, st, acc =>
    match st.src.get? st.pos with
    | some c => if c = q then (acc, st) else readQuotedGo q f st.adv (acc.push c)
    | none => (acc, st)

/-- The bare-word value loop of `readAttribute`. -/
def readBareGo : Nat → TokSt → String → String × TokSt
  | 0, st, acc => (acc, st)
  | f + 1, st, acc =>
    match st.src.get? st.pos with
    | some c => if isBareChar c then readBareGo f st.adv (acc.push c) else (acc, st)
    | none => (acc, st)

/-- The brace-depth scan of `readAttribute`'s `{...}` attribute value:
`while (depth > 0) { const char = this.advance(); ... }`.  The condition
never checks `pos`, so past end-of-input the loop keeps running with
`char = undefined` and an unchanged depth; `none` = not finished within
`fuel` iterations (so `∀ fuel, ... = none` is non-termination). -/
def braceScan : Nat → TokSt → Nat → String → Option (String × TokSt)
  | 0, _, _, _ => none
  | f + 1, st, depth, acc =>
    if depth = 0 then some (acc, st)
    else
      let (c, st') := st.advance
      let d1 := if c = some '{' then depth + 1 else depth
      let d2 := if c = some '}' then d1 - 1 else d1
      let acc' := if d2 > 0 then acc ++ charToJsStr c else acc
      braceScan f st' d2 acc'

/-- `readAttribute`: name, then `=`-less boolean, quoted, braced or bare
value.  The braced branch uses the caller's fuel (see `braceScan`). -/
def readAttribute (fuel : Nat) (st : TokSt) : Option ((String × AttrVal) × TokSt) :=
  let (name, st1) := readIdent st
  let st2 := st1.skipWS
  if st2.peek ≠ some '=' then some ((name, .b true), st2)
  else
    let st3 := st2.adv
    let st4 := st3.skipWS
    match st4.peek with
    | some '"' =>
      let st5 := st4.adv
      let (v, st6) := readQuotedGo '"' (st5.src.length - st5.pos) st5 ""
      some ((name, .s v), st6.adv)
    | some '\'' =>
      let st5 := st4.adv
      let (v, st6) := readQuotedGo '\'' (st5.src.length - st5.pos) st5 ""
      some ((name, .s v), st6.adv)
    | some '{' =>
      let st5 := st4.adv
      (braceScan fuel st5 1 "").bind
        (fun r => some ((name, .s ("\x7b" ++ r.1 ++ "\x7d")), r.2))
    | _ =>
      let (v, st5) := readBareGo (st4.src.length - st4.pos) st4 ""
      some ((name, .s v), st5)

/-- The attribute loop of `readOpenTag`
(`while (peek && peek !== '>' && peek !== '/')`).  An attribute that
consumes no characters makes this loop run forever, so it takes fuel. -/
def attrsLoop : Nat → TokSt → List (String × AttrVal) →
    Option (List (String × AttrVal) × TokSt)
  | 0, _, _ => none
  | f + 1, st, acc =>
    match st.peek with
    | none => some (acc, st)
    | some c =>
      if c = '>' ∨ c = '/' then some (acc, st)
      else
        (readAttribute f st).bind
          (fun r => attrsLoop f r.2.skipWS (setAssoc acc r.1.1 r.1.2))

/-- `readOpenTag`. -/
def readOpenTag (fuel : Nat) (st : TokSt) : Option (Token × TokSt) :=
  let loc := st.getLoc
  let st1 := st.adv
  let st2 := st1.skipWS
  let (tagName, st3) := readIdent st2
  let st4 := st3.skipWS
  (attrsLoop fuel st4 []).bind (fun r =>
    let st5 := r.2
    let (ty, st6) :=
      if st5.peek = some '/' then (TokType.tSelfClose, st5.adv) else (TokType.tOpen, st5)
    let st7 := if st6.peek = some '>' then st6.adv else st6
    some ({ type := ty, value := .tag tagName r.1, loc := loc }, st7))

/-- The name loop of `readCloseTag` (`while (peek && peek !== '>')`). -/
def readCloseGo : Nat → TokSt → String → String × TokSt
  | 0, st, acc => (acc, st)
  | f + 1, st, acc =>
    match st.src.get? st.pos with
    | some c => if c = '>' then (acc, st) else readCloseGo f st.adv (acc.push c)
    | none => (acc, st)

/-- `readCloseTag`. -/
def readCloseTag (st : TokSt) : Token × TokSt :=
  let loc := st.getLoc
  let st1 := st.adv
  let st2 := st1.adv
  let (tagName, st3) := readCloseGo (st2.src.length - st2.pos) st2 ""
  let st4 := if st3.peek = some '>' then st3.adv else st3
  ({ type := .tClose, value := .str (jsTrimStr tagName), loc := loc }, st4)

/-- The balanced scan of `readExpression`
(`while (depth > 0 && this.pos < this.source.length)`) — unlike
`braceScan` this condition bounds `pos`, so the loop is total. -/
def exprGo : Nat → TokSt → Nat → String → String × TokSt
  | 0, st, _, acc => (acc, st)
  | f + 1, st, depth, acc =>
    if depth = 0 then (acc, st)
    else
      match st.src.get? st.pos with
      | none => (acc, st)
      | some _ =>
        let (c, st') := st.advance
        let d1 := if c = some '{' then depth + 1 else depth
        let d2 := if c = some '}' then d1 - 1 else d1
        let acc' := if d2 > 0 then acc ++ charToJsStr c else acc
        exprGo f st' d2 acc'

/-- `readExpression`. -/
def readExpression (st : TokSt) : Token × TokSt :=
  let loc := st.getLoc
  let st1 := st.adv
  let (expr, st2) := exprGo (st1.src.length - st1.pos) st1 1 ""
  ({ type := .tExpr, value := .str (jsTrimStr expr), loc := loc }, st2)

/-- The text loop of `readText` (`while (peek && peek !== '<' && peek !== '{')`). -/
def readTextGo : Nat → TokSt → String → String × TokSt
  | 0, st, acc => (acc, st)
  | f + 1, st, acc =>
    match st.src.get? st.pos with
    | some c =>
      if c = '<' ∨ c = '{' then (acc, st) else readTextGo f st.adv (acc.push c)
    | none => (acc, st)

/-- `readText`. -/
def readText (st : TokSt) : Token × TokSt :=
  let loc := st.getLoc
  let (text, st') := readTextGo (st.src.length - st.pos) st ""
  ({ type := .tText, value := .str (jsTrimStr text), loc := loc }, st')

/-- The main `tokenize` loop (`while (this.pos < this.source.length)`).
`tf` is the fuel handed to the open-tag reader; the structural counter is
the bound `length - pos` on the loop's own iterations. -/
def mainGo (tf : Nat) : Nat → TokSt → List Token → Option (List Token × TokSt)
  | 0, _, _ => none
  | bf + 1, st, acc =>
    if st.pos < st.src.length then
      let st1 := st.skipWS
      match st1.peek with
      | some '<' =>
        if st1.src.get? (st1.pos + 1) = some '/' then
          let (t, st2) := readCloseTag st1
          mainGo tf bf st2 (acc ++ [t])
        else
          (readOpenTag tf st1).bind (fun r => mainGo tf bf r.2 (acc ++ [r.1]))
      | some '{' =>
        let (t, st2) := readExpression st1
        mainGo tf bf st2 (acc ++ [t])
      | _ =>
        let (t, st2) := readText st1
        mainGo tf bf st2 (acc ++ [t])
    else some (acc, st)

/-- `Tokenizer.tokenize` on trimmed input, with the final `eof` token.
`none` means the tokenizer has not finished within `fuel` iterations of its
unbounded loops (so `∀ fuel, tokenize fuel s = none` is non-termination). -/
def tokenize (fuel : Nat) (source : String) : Option (List Token) :=
  let st0 : TokSt := { src := jsTrim source.data, pos := 0, line := 1, col := 1 }
  (mainGo fuel (st0.src.length + 1) st0 []).map
    (fun r => r.1 ++ [{ type := .tEof, value := .str "", loc := r.2.getLoc }])

/-! ## Parser (`src/compiler/parser.ts`, class `Parser`)

The AST is the tagged variant the parser constructs.  `parseElement` does
not set `isStatic` on Element/Component nodes (it stays `undefined`), and
the SSA builder later reads it for `create_element` metadata, so Element
carries `isStatic : Option Bool` (`none` = `undefined`); Text/Expression
statically carry `true`/`false` in the source and the builder hardcodes
them, so they need no field.  Source locations are copied into AST nodes
by the parser and never read afterwards, so they are not modelled. -/

inductive ASTNode where
  | program (children : List ASTNode)
  | element (tag : String) (attributes : List (String × AttrVal))
      (isStatic : Option Bool) (children : List ASTNode)
  | component (tag : String) (attributes : List (String × AttrVal))
      (children : List ASTNode)
  | text (value : String)
  | expression (expr : String)
  | fragment (children : List ASTNode)

/-- `/^[A-Z]/.test(tag)`. -/
def startsUpper (s : String) : Bool :=
  match s.data with
  | c :: _ => 'A' ≤ c && c ≤ 'Z'
  | [] => false

/-- A token's `value` as the string JavaScript stores (for `text`/`expr`/
`close` tokens it is the payload itself; open-tag values are structured,
see `TokValue`, and are only read by `parseElement`). -/
def TokValue.asStr : TokValue → String
  | .str s => s
  | .tag t _ => t

mutual

/-- `parseChildren`: siblings until a `close`/`eof` token (not consumed). -/
def parseChildren : Nat → List Token → Option (List ASTNode × List Token)
  | 0, _ => none
  | _ + 1, [] => some ([], [])
  | f + 1, t :: ts =>
    if t.type = .tClose ∨ t.type = .tEof then some ([], t :: ts)
    else
      match parseNode f (t :: ts) with
      | none => none
      | some (n?, ts') =>
        match parseChildren f ts' with
        | none => none
        | some (rest, ts'') =>
          some ((match n? with | some n => n :: rest | none => rest), ts'')
termination_by structural fuel => fuel

/-- `parseNode`: dispatch on the current token (`null` results excluded
from the children list by `parseChildren`). -/
def parseNode : Nat → List Token → Option (Option ASTNode × List Token)
  | 0, _ => none
  | _ + 1, [] => some (none, [])
  | f + 1, t :: ts =>
    match t.type with
    | .tText => some (some (.text t.value.asStr), ts)
    | .tExpr => some (some (.expression t.value.asStr), ts)
    | .tOpen | .tSelfClose =>
      match parseElement f (t :: ts) with
      | none => none
      | some (n, ts') => some (some n, ts')
    | .tEof => some (none, t :: ts)
    | .tClose => some (none, ts)
termination_by structural fuel => fuel

/-- `parseElement`: `JSON.parse` of the open-tag payload (the structured
`TokValue.tag`; a plain-string payload would make `JSON.parse` throw,
modelled as `none`), uppercase-initial ⇒ Component, self-closing ⇒ empty
children, else recursive children and unconditional consumption of a
following `close` token — with no name match check. -/
def parseElement : Nat → List Token → Option (ASTNode × List Token)
  | 0, _ => none
  | _ + 1, [] => none
  | f + 1, t :: ts =>
    match t.value with
    | .str _ => none
    | .tag tagName attrs =>
      if t.type = .tSelfClose then
        some ((if startsUpper tagName then .component tagName attrs []
               else .element tagName attrs none []), ts)
      else
        match parseChildren f ts with
        | none => none
        | some (children, ts') =>
          let ts'' := match ts' with
            | c :: r => if c.type = .tClose then r else ts'
            | [] => ts'
          some ((if startsUpper tagName then .component tagName attrs children
                 else .element tagName attrs none children), ts'')
termination_by structural fuel => fuel

end

/-- `parse(source)`: tokenize then wrap `parseChildren` in a Program. -/
def parse (fuel : Nat) (source : String) : Option ASTNode :=
  match tokenize fuel source with
  | none => none
  | some toks =>
    match parseChildren fuel toks with
    | none => none
    | some (children, _) => some (.program children)

/-! ## SSA builder (`src/compiler/ssa.ts`, class `SSABuilder`)

The builder only ever creates one block (the entry, id 0), so its working
state `BSt` carries the counters and that block's instruction list; `build`
assembles the full `SSAIR` record around it.  `visitElement` throws on a
falsy tag (`''`), so the visitors return `Option`.  Instruction values are
the closed set of shapes the builder stores (`JVal`); `metadata` carries
exactly the keys the source ever writes, each `Option` for absence. -/

inductive Op where
  | alloc
  | assign
  | load
  | store
  | call
  | branch
  | phi
  | ret
  | create_element
  | create_text
  | set_prop
  | append_child
  | mount
  | patch
deriving DecidableEq, Repr

/-- The op name as the source spells it (`ret` is `'return'`). -/
def Op.str : Op → String
  | .alloc => "alloc"
  | .assign => "assign"
  | .load => "load"
  | .store => "store"
  | .call => "call"
  | .branch => "branch"
  | .phi => "phi"
  | .ret => "return"
  | .create_element => "create_element"
  | .create_text => "create_text"
  | .set_prop => "set_prop"
  | .append_child => "append_child"
  | .mount => "mount"
  | .patch => "patch"

/-- The values the builder ever stores in `instruction.value`: a string
(text literal / expression text / attribute literal), the boolean `true`
(bare attribute), or an attributes object (Component props). -/
inductive JVal where
  | str (s : String)
  | jbool (b : Bool)
  | obj (fields : List (String × AttrVal))
deriving DecidableEq, Repr

def AttrVal.toJVal : AttrVal → JVal
  | .s v => .str v
  | .b v => .jbool v

/-- The metadata keys the source writes (each op writes a subset; only
`isStatic` and `component` are ever read downstream). -/
structure Metadata where
  isStatic : Option Bool := none
  component : Option String := none
  key : Option String := none
  tag : Option String := none
  type : Option String := none
deriving DecidableEq, Repr

structure Instr where
  op : Op
  dest : Option String := none
  args : Option (List String) := none
  value : Option JVal := none
  metadata : Option Metadata := none
deriving DecidableEq, Repr

structure BasicBlock where
  id : Nat
  instructions : List Instr
  predecessors : List Nat := []
  successors : List Nat := []
  dominates : List Nat := []
deriving DecidableEq, Repr

structure SSAIR where
  blocks : List (Nat × BasicBlock)
  entry : Nat
  vars : List (String × String)
  nextVarId : Nat := 0
  nextBlockId : Nat := 0
deriving DecidableEq, Repr

/-- Builder state: the variable counter and the entry block's instruction
list (`emit` appends to the single current block). -/
structure BSt where
  varCounter : Nat
  instrs : List Instr
deriving DecidableEq, Repr

/-- `newVar(prefix)`. -/
def BSt.newVar (st : BSt) (pre : String) : String × BSt :=
  (pre ++ toString st.varCounter, { st with varCounter := st.varCounter + 1 })

/-- `emit(instruction)`. -/
def BSt.emit (st : BSt) (i : Instr) : BSt :=
  { st with instrs := st.instrs ++ [i] }

/-- JavaScript `value.startsWith(prefix)` / `value.endsWith(suffix)` /
`value.slice(1, -1)` on the character list (Lean's byte-position `String`
primitives are avoided so everything reduces). -/
def strStartsWith (s pre : String) : Bool := pre.data.isPrefixOf s.data

def strEndsWith (s suf : String) : Bool := suf.data.isSuffixOf s.data

def sliceInner (s : String) : String := ⟨(s.data.drop 1).dropLast⟩

/-- `metadata: { key, isStatic: typeof value !== 'string' || !value.startsWith('{') }`
for `set_prop`. -/
def attrValIsStatic : AttrVal → Bool
  | .s v => !(strStartsWith v "\x7b")
  | .b _ => true

/-- `visitValue`: a `{...}` string value becomes a non-static `load` of the
unwrapped text, any other value a static `alloc`. -/
def visitValue (v : AttrVal) (st : BSt) : String × BSt :=
  match v with
  | .s s =>
    if strStartsWith s "\x7b" && strEndsWith s "\x7d" then
      let expr := sliceInner s
      let (dest, st1) := st.newVar "val"
      (dest, st1.emit { op := .load, dest := some dest, value := some (.str expr),
                        metadata := some { isStatic := some false } })
    else
      let (dest, st1) := st.newVar "const"
      (dest, st1.emit { op := .alloc, dest := some dest, value := some (.str s),
                        metadata := some { isStatic := some true } })
  | .b b =>
    let (dest, st1) := st.newVar "const"
    (dest, st1.emit { op := .alloc, dest := some dest, value := some (.jbool b),
                      metadata := some { isStatic := some true } })

/-- The attribute loop of `visitElement` (resolve the value, then
`set_prop(element, key, value)`). -/
def visitAttrs (dest : String) : List (String × AttrVal) → BSt → BSt
  | [], st => st
  | (key, v) :: rest, st =>
    let (valueVar, st1) := visitValue v st
    let st2 := st1.emit { op := .set_prop, args := some [dest, key, valueVar],
                          metadata := some { isStatic := some (attrValIsStatic v),
                                             key := some key } }
    visitAttrs dest rest st2

mutual

/-- `visitNode`: dispatch on the node kind (the `Option` threads the
`visitElement` missing-tag throw and the fuel). -/
def visitNode : Nat → ASTNode → BSt → Option (String × BSt)
  | 0, _, _ => none
  | f + 1, .program cs, st =>
    (visitList f cs st).map
      (fun p => ((p.1.filter (· ≠ "")).getLast?.getD "", p.2))
  | f + 1, .element tag attrs isStat cs, st =>
    if tag = "" then none
    else
      let (dest, st1) := st.newVar "el"
      let st2 := st1.emit { op := .create_element, dest := some dest,
                            args := some [tag],
                            metadata := some { tag := some tag, isStatic := isStat } }
      let st3 := visitAttrs dest attrs st2
      (visitChildren f dest cs st3).map (fun st4 => (dest, st4))
  | _ + 1, .text v, st =>
    let (dest, st1) := st.newVar "txt"
    some (dest, st1.emit { op := .create_text, dest := some dest,
                           value := some (.str v),
                           metadata := some { isStatic := some true } })
  | _ + 1, .expression e, st =>
    let (dest, st1) := st.newVar "expr"
    some (dest, st1.emit { op := .load, dest := some dest, value := some (.str e),
                           metadata := some { isStatic := some false } })
  | _ + 1, .component tag attrs _, st =>
    let (dest, st1) := st.newVar "comp"
    let (propsVar, st2) := st1.newVar "props"
    let st3 := st2.emit { op := .alloc, dest := some propsVar,
                          value := some (.obj attrs) }
    let st4 := st3.emit { op := .call, dest := some dest,
                          args := some [tag, propsVar],
                          metadata := some { component := some tag } }
    some (dest, st4)
  | f + 1, .fragment cs, st =>
    let (dest, st1) := st.newVar "frag"
    (visitList f cs st1).map
      (fun p => (dest, p.2.emit { op := .alloc, dest := some dest,
                                  args := some p.1,
                                  metadata := some { type := some "fragment" } }))
termination_by structural fuel => fuel

/-- The `children.map(visitNode)` of `visitProgram`/`visitFragment`. -/
def visitList : Nat → List ASTNode → BSt → Option (List String × BSt)
  | 0, _, _ => none
  | _ + 1, [], st => some ([], st)
  | f + 1, c :: cs, st =>
    (visitNode f c st).bind
      (fun p => (visitList f cs p.2).map (fun q => (p.1 :: q.1, q.2)))
termination_by structural fuel => fuel

/-- The child loop of `visitElement` (`if (childVar)` guards the append). -/
def visitChildren : Nat → String → List ASTNode → BSt → Option BSt
  | 0, _, _, _ => none
  | _ + 1, _, [], st => some st
  | f + 1, dest, c :: cs, st =>
    (visitNode f c st).bind
      (fun p =>
        let st2 :=
          if p.1 ≠ "" then
            p.2.emit { op := .append_child, args := some [dest, p.1] }
          else p.2
        visitChildren f dest cs st2)
termination_by structural fuel => fuel

end

/-- The destination of an instruction as a (zero- or one-element) list. -/
def destL (i : Instr) : List String :=
  match i.dest with
  | some d => [d]
  | none => []

/-- All destination names of an instruction list, in order. -/
def dests : List Instr → List String
  | [] => []
  | i :: l => destL i ++ dests l

/-- Truthiness of `inst.metadata?.isStatic`. -/
def mdIsStatic : Option Metadata → Bool
  | some md => md.isStatic = some true
  | none => false

/-- `deadCodeElimination`: collect every referenced argument name, then
keep an instruction iff it has no dest, its dest is referenced, or its op
is `call`/`store`. -/
def usedArgs (blocks : List (Nat × BasicBlock)) : List String :=
  (blocks.map (fun b => b.2.instructions)).flatten.map (fun i => i.args.getD [])
    |>.flatten

def dceKeep (used : List String) (inst : Instr) : Bool :=
  match inst.dest with
  | none => true
  | some d => used.contains d || inst.op = .call || inst.op = .store

def deadCodeElimination (ir : SSAIR) : SSAIR :=
  let used := usedArgs ir.blocks
  let blocks' := ir.blocks.map
    (fun p => (p.1, { p.2 with instructions := p.2.instructions.filter (dceKeep used) }))
  { ir with blocks := blocks' }

/-- `constantFolding`, first pass: destinations of statically-flagged
`alloc`s, mapped to their values (which may be `undefined` = `none`). -/
def collectConstants (blocks : List (Nat × BasicBlock)) : List (String × Option JVal) :=
  blocks.foldl (fun acc p =>
    p.2.instructions.foldl (fun acc i =>
      if i.op = .alloc && mdIsStatic i.metadata then
        setAssoc acc (i.dest.getD "") i.value
      else acc) acc) []

/-- `constantFolding`, second pass over one argument list: a known constant
argument is replaced by a freshly minted `fold` alias, registered in the
constants table; the table and the builder's variable counter thread
through. -/
def foldArgs : List String → List (String × Option JVal) → Nat →
    List String × List (String × Option JVal) × Nat
  | [], cs, n => ([], cs, n)
  | a :: rest, cs, n =>
    match lookupA cs a with
    | some v =>
      let newVar := "fold" ++ toString n
      let cs1 := setAssoc cs newVar v
      let (r, cs2, n') := foldArgs rest cs1 (n + 1)
      (newVar :: r, cs2, n')
    | none =>
      let (r, cs1, n') := foldArgs rest cs n
      (a :: r, cs1, n')

def foldInstrs : List Instr → List (String × Option JVal) → Nat →
    List Instr × List (String × Option JVal) × Nat
  | [], cs, n => ([], cs, n)
  | i :: rest, cs, n =>
    match i.args with
    | none =>
      let (r, cs1, n') := foldInstrs rest cs n
      (i :: r, cs1, n')
    | some args =>
      let (args', cs1, n1) := foldArgs args cs n
      let (r, cs2, n') := foldInstrs rest cs1 n1
      ({ i with args := some args' } :: r, cs2, n')

def foldBlocks : List (Nat × BasicBlock) → List (String × Option JVal) → Nat →
    List (Nat × BasicBlock) × List (String × Option JVal) × Nat
  | [], cs, n => ([], cs, n)
  | (bid, b) :: rest, cs, n =>
    let (is, cs1, n1) := foldInstrs b.instructions cs n
    let (r, cs2, n') := foldBlocks rest cs1 n1
    ((bid, { b with instructions := is }) :: r, cs2, n')

def constantFolding (ir : SSAIR) (varCounter : Nat) : SSAIR × Nat :=
  let constants := collectConstants ir.blocks
  let (blocks', _, n') := foldBlocks ir.blocks constants varCounter
  ({ ir with blocks := blocks' }, n')

/-- The CSE key ``​`${op}:${JSON.stringify(args)}:${value}`​`` needs JSON of a
string array and the template coercion of `value`; both are defined with
the generator's JSON below, so the CSE pass follows them. -/
def jsonEscapeChar (c : Char) : String :=
  if c = '"' then "\\\""
  else if c = '\\' then "\\\\"
  else if c = '\n' then "\\n"
  else if c = '\r' then "\\r"
  else if c = '\t' then "\\t"
  else if c = '\x08' then "\\b"
  else if c = '\x0c' then "\\f"
  else if c.toNat < 0x20 then
    "\\u00" ++ String.singleton (Nat.digitChar (c.toNat / 16)) ++
      String.singleton (Nat.digitChar (c.toNat % 16))
  else String.singleton c

def jsonQuote (s : String) : String :=
  "\"" ++ String.join (s.data.map jsonEscapeChar) ++ "\""

def jsonOfAttr : AttrVal → String
  | .s v => jsonQuote v
  | .b v => if v then "true" else "false"

def jsonOfObj (fields : List (String × AttrVal)) : String :=
  "\x7b" ++
    String.intercalate "," (fields.map (fun p => jsonQuote p.1 ++ ":" ++ jsonOfAttr p.2)) ++
  "\x7d"

/-- `JSON.stringify(inst.value)`, with `undefined` for an absent value
(the template then renders the text `undefined`, as JavaScript does). -/
def jsonStringify : JVal → String
  | .str s => jsonQuote s
  | .jbool b => if b then "true" else "false"
  | .obj fields => jsonOfObj fields

def jsonStringifyOpt : Option JVal → String
  | none => "undefined"
  | some v => jsonStringify v

/-- `JSON.stringify(inst.args)` inside the CSE key template. -/
def jsonOfArgs : Option (List String) → String
  | none => "undefined"
  | some l => "[" ++ String.intercalate "," (l.map jsonQuote) ++ "]"

/-- Template-literal coercion of `inst.value` (`${inst.value}`). -/
def templateVal : Option JVal → String
  | none => "undefined"
  | some (.str s) => s
  | some (.jbool b) => if b then "true" else "false"
  | some (.obj _) => "[object Object]"

/-- `commonSubexpressionElimination`: key `create_element`/`create_text`
instructions; a repeated key records its dest as an alias of the first
occurrence's dest in `ir.vars`. -/
def cseKey (i : Instr) : String :=
  i.op.str ++ ":" ++ jsonOfArgs i.args ++ ":" ++ templateVal i.value

def cseInstrs : List Instr → List (String × String) → List (String × String) →
    List (String × String) × List (String × String)
  | [], exprs, vars => (exprs, vars)
  | i :: rest, exprs, vars =>
    if i.op = .create_element ∨ i.op = .create_text then
      let key := cseKey i
      match lookupA exprs key, i.dest with
      | some first, some d => cseInstrs rest exprs (setAssoc vars d first)
      | some _, none => cseInstrs rest exprs vars
      | none, some d => cseInstrs rest (setAssoc exprs key d) vars
      | none, none => cseInstrs rest exprs vars
    else cseInstrs rest exprs vars

def commonSubexpressionElimination (ir : SSAIR) : SSAIR :=
  let (_, vars) := ir.blocks.foldl
    (fun acc p => cseInstrs p.2.instructions acc.1 acc.2) ([], ir.vars)
  { ir with vars := vars }

/-- The IR as `build` assembles it before `optimize()` runs. -/
def buildSSAPreOpt (fuel : Nat) (ast : ASTNode) : Option SSAIR :=
  match visitNode fuel ast { varCounter := 0, instrs := [] } with
  | none => none
  | some (_, st) =>
    some { blocks := [(0, { id := 0, instructions := st.instrs })],
           entry := 0, vars := [], nextVarId := 0, nextBlockId := 0 }

/-- `buildSSA`: build, then the three passes in fixed order (DCE, constant
folding — which continues the builder's variable counter — then CSE). -/
def buildSSA (fuel : Nat) (ast : ASTNode) : Option SSAIR :=
  match visitNode fuel ast { varCounter := 0, instrs := [] } with
  | none => none
  | some (_, st) =>
    let ir0 : SSAIR := { blocks := [(0, { id := 0, instructions := st.instrs })],
                         entry := 0, vars := [], nextVarId := 0, nextBlockId := 0 }
    let ir1 := deadCodeElimination ir0
    let (ir2, _) := constantFolding ir1 st.varCounter
    some (commonSubexpressionElimination ir2)

/-! ## Code generator (`src/compiler/codegen.ts`, class `CodeGenerator`)

The generator instance holds the resolved options (immutable after the
constructor) and four mutable fields: `output`, `indent`, `varMap`,
`staticCache` — the structure `EmitState`.  `generate()` resets `output`
and `indent` but not the two maps; `compile`/`compileWithOptions`
construct a fresh instance per call, so those start empty there. -/

inductive Target where
  | js
  | wasm
deriving DecidableEq, Repr

structure CodeGenOptions where
  target : Target
  minify : Bool
  inlineCache : Bool
  staticOptimization : Bool
deriving DecidableEq, Repr

/-- `Partial<CodeGenOptions>`: each field possibly absent. -/
structure PartialOptions where
  target : Option Target := none
  minify : Option Bool := none
  inlineCache : Option Bool := none
  staticOptimization : Option Bool := none
deriving DecidableEq, Repr

/-- The constructor's defaulting (`options.target || 'js'`,
`options.minify ?? true`, ...). -/
def resolveOptions (p : PartialOptions) : CodeGenOptions :=
  { target := p.target.getD .js,
    minify := p.minify.getD true,
    inlineCache := p.inlineCache.getD true,
    staticOptimization := p.staticOptimization.getD true }

structure EmitState where
  output : List String
  indent : Nat
  varMap : List (String × String)
  staticCache : List (String × String)
deriving DecidableEq, Repr

def emptyEmit : EmitState := { output := [], indent := 0, varMap := [], staticCache := [] }

/-- `'  '.repeat(indent)`. -/
def indentPad (n : Nat) : String := String.join (List.replicate n "  ")

/-- `emit(code)`. -/
def emitLine (o : CodeGenOptions) (st : EmitState) (code : String) : EmitState :=
  if o.minify then { st with output := st.output ++ [code] }
  else { st with output := st.output ++ [indentPad st.indent ++ code] }

def indentInc (st : EmitState) : EmitState := { st with indent := st.indent + 1 }

/-- `indentDec` (`Math.max(0, indent - 1)` is `Nat` subtraction). -/
def indentDec (st : EmitState) : EmitState := { st with indent := st.indent - 1 }

/-- `generateShortName(index)`: the do-while base-26 rendering over
`'abcdefghijklmnopqrstuvwxyz'`.  The loop divides `n` by 26 each round, so
`index + 1` rounds of fuel always suffice. -/
def shortChars : List Char := "abcdefghijklmnopqrstuvwxyz".data

def shortNameGo : Nat → Nat → List Char → List Char
  | 0, _, acc => acc
  | f + 1, n, acc =>
    let acc' := shortChars.getD (n % 26) ' ' :: acc
    let n' := n / 26
    if n' > 0 then shortNameGo f n' acc' else acc'

def generateShortName (index : Nat) : String := ⟨shortNameGo (index + 1) index []⟩

/-- `getVarName(original)`: cached rename; with minify, a fresh short name
from the current map size; otherwise the original (not cached). -/
def getVarName (o : CodeGenOptions) (st : EmitState) (original : String) :
    String × EmitState :=
  match lookupA st.varMap original with
  | some v => (v, st)
  | none =>
    if o.minify then
      let short := generateShortName st.varMap.length
      (short, { st with varMap := st.varMap ++ [(original, short)] })
    else (original, st)

/-- Truthiness of `inst.metadata?.component` (a nonempty string). -/
def mdComponent : Option Metadata → Option String
  | some md =>
    match md.component with
    | some s => if s = "" then none else some s
    | none => none
  | none => none

def emitAlloc (o : CodeGenOptions) (inst : Instr) (st : EmitState) : EmitState :=
  let (dest, st1) := getVarName o st (inst.dest.getD "")
  let value := jsonStringifyOpt inst.value
  if mdIsStatic inst.metadata && o.staticOptimization then
    let cacheKey := "alloc_" ++ value
    match lookupA st1.staticCache cacheKey with
    | some cached => emitLine o st1 ("const " ++ dest ++ " = " ++ cached ++ ";")
    | none =>
      let st2 := emitLine o st1 ("const " ++ dest ++ " = " ++ value ++ ";")
      { st2 with staticCache := st2.staticCache ++ [(cacheKey, dest)] }
  else emitLine o st1 ("const " ++ dest ++ " = " ++ value ++ ";")

def emitLoad (o : CodeGenOptions) (inst : Instr) (st : EmitState) : EmitState :=
  let (dest, st1) := getVarName o st (inst.dest.getD "")
  emitLine o st1 ("const " ++ dest ++ " = " ++ templateVal inst.value ++ ";")

def emitStore (o : CodeGenOptions) (inst : Instr) (st : EmitState) : EmitState :=
  let args := inst.args.getD []
  let (targetV, st1) := getVarName o st (args.getD 0 "")
  let (valueV, st2) := getVarName o st1 (args.getD 1 "")
  emitLine o st2 (targetV ++ " = " ++ valueV ++ ";")

/-- The `args.map(a => this.getVarName(a))` of `emitCall`, threading the
instance state left to right. -/
def mapGetVarName (o : CodeGenOptions) : List String → EmitState →
    List String × EmitState
  | [], st => ([], st)
  | a :: rest, st =>
    let (v, st1) := getVarName o st a
    let (vs, st2) := mapGetVarName o rest st1
    (v :: vs, st2)

def emitCall (o : CodeGenOptions) (inst : Instr) (st : EmitState) : EmitState :=
  let (dest, st1) :=
    match inst.dest with
    | some d => getVarName o st d
    | none => ("_", st)
  let args := inst.args.getD []
  let fn := args.getD 0 ""
  let rest := args.drop 1
  let (vs, st2) := mapGetVarName o rest st1
  let argStr := String.intercalate ", " vs
  match mdComponent inst.metadata with
  | some comp => emitLine o st2 ("const " ++ dest ++ " = " ++ comp ++ "(" ++ argStr ++ ");")
  | none =>
    let (fnV, st3) := getVarName o st2 fn
    emitLine o st3 ("const " ++ dest ++ " = " ++ fnV ++ "(" ++ argStr ++ ");")

def emitCreateElement (o : CodeGenOptions) (inst : Instr) (st : EmitState) : EmitState :=
  let (dest, st1) := getVarName o st (inst.dest.getD "")
  let tag := (inst.args.getD []).getD 0 ""
  if mdIsStatic inst.metadata && o.inlineCache then
    let cacheKey := "el_" ++ tag
    let st2 := emitLine o st1 ("const " ++ dest ++ " = _cache.has('" ++ cacheKey ++
      "') ? _cache.get('" ++ cacheKey ++ "').cloneNode(true) : (function() \x7b")
    let st3 := indentInc st2
    let st4 := emitLine o st3 ("const el = h('" ++ tag ++ "', \x7b\x7d);")
    let st5 := emitLine o st4 ("_cache.set('" ++ cacheKey ++ "', el.cloneNode(true));")
    let st6 := emitLine o st5 "return el;"
    let st7 := indentDec st6
    emitLine o st7 "\x7d)();"
  else
    emitLine o st1 ("const " ++ dest ++ " = h('" ++ tag ++ "', \x7b\x7d);")

def emitCreateText (o : CodeGenOptions) (inst : Instr) (st : EmitState) : EmitState :=
  let (dest, st1) := getVarName o st (inst.dest.getD "")
  let text := jsonStringifyOpt inst.value
  if o.minify then emitLine o st1 ("const " ++ dest ++ " = " ++ text ++ ";")
  else emitLine o st1 ("const " ++ dest ++ " = createTextVNode(" ++ text ++ ");")

def emitSetProp (o : CodeGenOptions) (inst : Instr) (st : EmitState) : EmitState :=
  let args := inst.args.getD []
  let el := args.getD 0 ""
  let key := args.getD 1 ""
  let value := args.getD 2 ""
  let (elVar, st1) := getVarName o st el
  let (valVar, st2) := getVarName o st1 value
  if mdIsStatic inst.metadata then
    emitLine o st2 (elVar ++ ".props = " ++ elVar ++ ".props || \x7b\x7d; " ++
      elVar ++ ".props['" ++ key ++ "'] = " ++ valVar ++ ";")
  else
    let st3 := emitLine o st2 ("if (!" ++ elVar ++ ".props) " ++ elVar ++ ".props = \x7b\x7d;")
    emitLine o st3 (elVar ++ ".props['" ++ key ++ "'] = " ++ valVar ++ ";")

def emitAppendChild (o : CodeGenOptions) (inst : Instr) (st : EmitState) : EmitState :=
  let args := inst.args.getD []
  let (parentVar, st1) := getVarName o st (args.getD 0 "")
  let (childVar, st2) := getVarName o st1 (args.getD 1 "")
  let st3 := emitLine o st2 ("if (!" ++ parentVar ++ ".children) " ++ parentVar ++
    ".children = [];")
  emitLine o st3 (parentVar ++ ".children.push(" ++ childVar ++ ");")

def emitMount (o : CodeGenOptions) (inst : Instr) (st : EmitState) : EmitState :=
  let args := inst.args.getD []
  let (vnodeV, st1) := getVarName o st (args.getD 0 "")
  let (containerV, st2) := getVarName o st1 (args.getD 1 "")
  emitLine o st2 ("mount(" ++ vnodeV ++ ", " ++ containerV ++ ");")

def emitPatch (o : CodeGenOptions) (inst : Instr) (st : EmitState) : EmitState :=
  let args := inst.args.getD []
  let (oldV, st1) := getVarName o st (args.getD 0 "")
  let (newV, st2) := getVarName o st1 (args.getD 1 "")
  let (containerV, st3) := getVarName o st2 (args.getD 2 "")
  emitLine o st3 ("patch(" ++ oldV ++ ", " ++ newV ++ ", " ++ containerV ++ ");")

def emitReturn (o : CodeGenOptions) (inst : Instr) (st : EmitState) : EmitState :=
  match inst.args with
  | some (a :: _) =>
    let (v, st1) := getVarName o st a
    emitLine o st1 ("return " ++ v ++ ";")
  | _ => emitLine o st "return;"

/-- `emitInstruction`: the per-op switch; ops without a case (`assign`,
`branch`, `phi`) are silently skipped. -/
def emitInstruction (o : CodeGenOptions) (inst : Instr) (st : EmitState) : EmitState :=
  match inst.op with
  | .alloc => emitAlloc o inst st
  | .load => emitLoad o inst st
  | .store => emitStore o inst st
  | .call => emitCall o inst st
  | .create_element => emitCreateElement o inst st
  | .create_text => emitCreateText o inst st
  | .set_prop => emitSetProp o inst st
  | .append_child => emitAppendChild o inst st
  | .mount => emitMount o inst st
  | .patch => emitPatch o inst st
  | .ret => emitReturn o inst st
  | _ => st

def emitList (o : CodeGenOptions) : List Instr → EmitState → EmitState
  | [], st => st
  | i :: rest, st => emitList o rest (emitInstruction o i st)

def emitHeader (o : CodeGenOptions) (st : EmitState) : EmitState :=
  let st1 := emitLine o st "(function(h, mount, patch) \x7b"
  let st2 := indentInc st1
  let st3 := emitLine o st2 "\"use strict\";"
  if o.staticOptimization then emitLine o st3 "const _cache = new Map();" else st3

def emitFooter (o : CodeGenOptions) (st : EmitState) : EmitState :=
  let st1 := indentDec st
  emitLine o st1 "\x7d)(h, mount, patch);"

/-- `emitBlocks`: a missing entry block returns with nothing emitted;
otherwise the `render` wrapper around the entry block's instructions. -/
def emitBlocks (o : CodeGenOptions) (ir : SSAIR) (st : EmitState) : EmitState :=
  match List.lookup ir.entry ir.blocks with
  | none => st
  | some b =>
    let st1 := emitLine o st "return (function render(props, state) \x7b"
    let st2 := indentInc st1
    let st3 := emitList o b.instructions st2
    let st4 := indentDec st3
    emitLine o st4 "\x7d);"

/-- `generate(ir)` started from an arbitrary instance state: resets
`output` and `indent`, emits header, blocks and footer, and joins with
`''` (minify) or `'\n'`.  Returns the string and the final instance
state. -/
def generateFrom (o : CodeGenOptions) (g : EmitState) (ir : SSAIR) :
    String × EmitState :=
  let st0 := { g with output := [], indent := 0 }
  let st1 := emitHeader o st0
  let st2 := emitBlocks o ir st1
  let st3 := emitFooter o st2
  ((if o.minify then String.join st3.output
    else String.intercalate "\n" st3.output), st3)

/-- `generateCode(ir, options)`: a fresh `CodeGenerator` per call. -/
def generateCode (p : PartialOptions) (ir : SSAIR) : String :=
  (generateFrom (resolveOptions p) emptyEmit ir).1

/-- `generateOptimizedCode(ir)`. -/
def generateOptimizedCode (ir : SSAIR) : String :=
  generateCode { minify := some true, inlineCache := some true,
                 staticOptimization := some true } ir

/-- `generateDebugCode(ir)`. -/
def generateDebugCode (ir : SSAIR) : String :=
  generateCode { minify := some false, inlineCache := some false,
                 staticOptimization := some false } ir

/-- `compile(source)`. -/
def compile (fuel : Nat) (source : String) : Option String :=
  match parse fuel source with
  | none => none
  | some ast =>
    match buildSSA fuel ast with
    | none => none
    | some ir => some (generateOptimizedCode ir)

/-- `compileWithOptions(source, options)`. -/
def compileWithOptions (fuel : Nat) (source : String) (p : PartialOptions) :
    Option String :=
  match parse fuel source with
  | none => none
  | some ast =>
    match buildSSA fuel ast with
    | none => none
    | some ir => some (generateCode p ir)

/-- `compileWithOptions` with the generator seeded by an arbitrary
pre-existing instance state `g` instead of a fresh one (for stating that
the real call, which always constructs a fresh instance, cannot depend on
any earlier call's state). -/
def compileWithOptionsFrom (g : EmitState) (fuel : Nat) (source : String)
    (p : PartialOptions) : Option String :=
  match parse fuel source with
  | none => none
  | some ast =>
    match buildSSA fuel ast with
    | none => none
    | some ir => some (generateFrom (resolveOptions p) g ir).1

/-- `compile` with the generator seeded by an arbitrary instance state. -/
def compileFrom (g : EmitState) (fuel : Nat) (source : String) : Option String :=
  compileWithOptionsFrom g fuel source
    { minify := some true, inlineCache := some true, staticOptimization := some true }

/-! ## Properties under verification -/

/-- Argument positions that hold a literal tag/key string rather than a
value name: the tag of `create_element`, the key of `set_prop`, and the
component name of `call`. -/
def isLiteralPos (op : Op) (j : Nat) : Bool :=
  (op = .create_element && j = 0) || (op = .set_prop && j = 1) || (op = .call && j = 0)

/-- Every argument of `inst` is a previously defined destination (member
of `prior`) or a literal tag/key position. -/
def instrArgsOk (prior : List String) (inst : Instr) : Bool :=
  (inst.args.getD []).enum.all (fun p => isLiteralPos inst.op p.1 || prior.contains p.2)

/-- The single-static-assignment argument discipline down an instruction
list, `prior` being the destinations emitted before the list. -/
def ssaOkGo (prior : List String) : List Instr → Bool
  | [] => true
  | i :: rest => instrArgsOk prior i && ssaOkGo (prior ++ destL i) rest

/-- Claim C2's invariant over a whole IR: in every block, every argument
name is an earlier destination of the same block or a literal tag/key. -/
def irSSAOk (ir : SSAIR) : Bool :=
  ir.blocks.all (fun p => ssaOkGo [] p.2.instructions)

/-- The four ops claim C4 requires gone when dead (`call`/`store` exempt). -/
def removableOp (op : Op) : Bool :=
  op = .alloc || op = .load || op = .create_element || op = .create_text

/-- Claim C4 as stated over the final IR: no removable instruction remains
whose destination no instruction of that same IR references. -/
def c4Holds (ir : SSAIR) : Bool :=
  ir.blocks.all (fun p => p.2.instructions.all (fun i =>
    if removableOp i.op then
      match i.dest with
      | some d => (usedArgs ir.blocks).contains d
      | none => true
    else true))

/-- Substring test (for stating what the generated code does not contain). -/
def containsStr (hay needle : String) : Bool :=
  (List.range (hay.data.length + 1)).any
    (fun i => decide (((hay.data.drop i).take needle.data.length) = needle.data))

/-- The `varMap` after a sequence of `getVarName` lookups on a fresh
generator instance (the renaming state of one generation call). -/
def runGetVarNames (o : CodeGenOptions) (keys : List String) : EmitState :=
  keys.foldl (fun st k => (getVarName o st k).2) emptyEmit

/-- ASTs with no Fragment node anywhere (every AST the parser produces is
of this shape: no token kind ever creates a Fragment). -/
inductive NoFrag : ASTNode → Prop
  | program {cs} : (∀ c ∈ cs, NoFrag c) → NoFrag (.program cs)
  | element {tag attrs isStat cs} : (∀ c ∈ cs, NoFrag c) →
      NoFrag (.element tag attrs isStat cs)
  | component {tag attrs cs} : (∀ c ∈ cs, NoFrag c) →
      NoFrag (.component tag attrs cs)
  | text {v} : NoFrag (.text v)
  | expression {e} : NoFrag (.expression e)

/-- The parser-shaped example AST of `<div id="x"/>`, on which constant
folding rewrites the `set_prop` argument to a fresh `fold` alias. -/
def astDivIdX : ASTNode := .program [.element "div" [("id", .s "x")] none []]

/-- The options object `{}` (all defaults). -/
def defaultPartial : PartialOptions := {}

/-- An IR whose block map is empty (so the entry id has no block). -/
def emptyBlocksIR : SSAIR :=
  { blocks := [], entry := 0, vars := [], nextVarId := 0, nextBlockId := 0 }

/-- An instance state with leftover output/indent residue but fresh maps. -/
def junkEmitState : EmitState :=
  { output := ["junk"], indent := 5, varMap := [], staticCache := [] }

/-- Base-26 readback of a short name (digit `a` = 0): the left inverse of
`generateShortName`'s rendering. -/
def decode26 (l : List Char) : Nat := l.foldl (fun a c => a * 26 + (c.toNat - 97)) 0

/-- The pre-optimization IR of `<div id="x"/>` (witness input for the
amended C2). -/
def ssaPreDivIdX : SSAIR :=
  { blocks := [(0,
      { id := 0,
        instructions := [
          { op := .create_element, dest := some "el0", args := some ["div"],
            metadata := some { isStatic := none, tag := some "div" } },
          { op := .alloc, dest := some "const1", value := some (.str "x"),
            metadata := some { isStatic := some true } },
          { op := .set_prop, args := some ["el0", "id", "const1"],
            metadata := some { isStatic := some true, key := some "id" } }] })],
    entry := 0, vars := [], nextVarId := 0, nextBlockId := 0 }

/-- A one-instruction IR whose kept `create_element` destination is
referenced (witness input for the amended C4). -/
def ssaSelfRef : SSAIR :=
  { blocks := [(0,
      { id := 0,
        instructions := [
          { op := .create_element, dest := some "el0", args := some ["el0"] },
          { op := .set_prop, args := some ["el0", "id", "el0"] }] })],
    entry := 0, vars := [], nextVarId := 0, nextBlockId := 0 }

/-- The character list of the input `<div a={x` — an attribute value
opened with a brace and never closed before end-of-input. -/
def c10src : List Char := "<div a=\x7bx".data

/-- The shape of a minifying generator's rename map: the values, in
insertion order, are exactly the short names of 0, 1, 2, …. -/
def VarMapInv (vm : List (String × String)) : Prop :=
  vm.map Prod.snd = (List.range vm.length).map generateShortName

/-- Builder-state extension that respects the SSA argument discipline:
the new instructions reference only destinations already present (or
literal tag/key positions). -/
def GoodExt (st st' : BSt) : Prop :=
  ∃ Δ, st'.instrs = st.instrs ++ Δ ∧ ssaOkGo (dests st.instrs) Δ = true

/-! ## Claim theorems -/

/-- C1: the emitted code defines `render(props, state)`, but its body does
not end by returning the render root.  Evaluating `compile` at
`<div>hello</div>` — whose Program produces the `div` element's value —
the render body holds exactly the three construction statements and no
statement returning the root (minified name `a`): `SSABuilder.build`
discards `visitNode`'s result and never emits a `return` instruction, so
the generated `render` returns `undefined`, not the root node. -/
theorem c1_render_body_returns_nothing :
    compile 50 "<div>hello</div>" =
      some ("(function(h, mount, patch) \x7b\"use strict\";const _cache = new Map();" ++
        "return (function render(props, state) \x7bconst a = h('div', \x7b\x7d);" ++
        "const b = \"hello\";if (!a.children) a.children = [];" ++
        "a.children.push(b);\x7d);\x7d)(h, mount, patch);") ∧
    (compile 50 "<div>hello</div>").map (fun s => containsStr s "return a") =
      some false := by
  decide

/-- C2 counterexample: for the source shape `<div id="x"/>` (the AST the
parser yields for it), the optimized IR of `buildSSA` violates the claimed
invariant: constant folding rewrites the `set_prop` argument `const1` to
the freshly minted alias `fold2`, which is no instruction's destination
and no literal tag/key. -/
theorem c2_cex_fold_alias_undefined :
    (buildSSA 50 astDivIdX).map irSSAOk = some false := by decide

/-- C3 counterexample: tokenizing `{expr`, where end-of-input arrives
before the closing brace, raises no error at all: the tokenizer returns a
truncated expression token (text `expr`) followed by `eof`. -/
theorem c3_cex_unterminated_expression_tokenizes :
    tokenize 50 "\x7bexpr" =
      some [{ type := .tExpr, value := .str "expr", loc := ⟨1, 1, 1, 1⟩ },
            { type := .tEof, value := .str "", loc := ⟨1, 6, 1, 6⟩ }] := by
  decide

/-- C3 amended: the tokenizer permissively truncates on a missing
terminator instead of failing: `<div` yields an open-tag token named
`div` with no attributes, and an unterminated expression yields the
expression token read so far; no `UnterminatedTag`/`UnterminatedExpression`
error exists in the code. -/
theorem c3_truncation_is_silent :
    tokenize 50 "<div" =
      some [{ type := .tOpen, value := .tag "div" [], loc := ⟨1, 1, 1, 1⟩ },
            { type := .tEof, value := .str "", loc := ⟨1, 5, 1, 5⟩ }] ∧
    tokenize 50 "\x7bexpr" =
      some [{ type := .tExpr, value := .str "expr", loc := ⟨1, 1, 1, 1⟩ },
            { type := .tEof, value := .str "", loc := ⟨1, 6, 1, 6⟩ }] := by
  decide

/-- C4 counterexample: for `<div id="x"/>`, the final IR of `buildSSA`
keeps the statically flagged `alloc` (destination `const1`) although no
instruction of the final IR references `const1` any more: constant folding
renamed the referencing `set_prop` argument to the alias `fold2` after
dead-code elimination had already run. -/
theorem c4_cex_orphaned_static_alloc :
    (buildSSA 50 astDivIdX).map c4Holds = some false := by decide

/-- C5 counterexample: the 27th distinct original name (index 26) is
renamed to `ba`, not `aa`: the do-while of `generateShortName` renders the
index as a plain base-26 numeral, so the two-letter sequence starts at
`ba`. -/
theorem c5_cex_27th_name_is_ba :
    lookupA (runGetVarNames (resolveOptions defaultPartial)
        ((List.range 27).map (fun i => "v" ++ toString i))).varMap "v26" =
      some "ba" ∧
    generateShortName 26 ≠ "aa" := by decide

/-- C5 amended: with minify, short names are assigned in strict first-use
order as base-26 numerals over digits `a`..`z`: indices 0–25 map to
`a`..`z` and index 26 (the 27th distinct name) maps to `ba` (`aa` is
never produced, being a leading-zero numeral). -/
theorem c5_short_names_are_base26_numerals :
    (List.range 27).map generateShortName =
      ["a", "b", "c", "d", "e", "f", "g", "h", "i", "j", "k", "l", "m",
       "n", "o", "p", "q", "r", "s", "t", "u", "v", "w", "x", "y", "z",
       "ba"] := by decide

/-- C9 counterexample: for an IR with no entry block, `generateCode` (all
options defaulted) emits only the factory wrapper — the output contains no
`render` function at all, rather than a render function with an empty
body. -/
theorem c9_cex_no_render_function_emitted :
    generateCode defaultPartial emptyBlocksIR =
      "(function(h, mount, patch) \x7b\"use strict\";const _cache = new Map();" ++
        "\x7d)(h, mount, patch);" ∧
    containsStr (generateCode defaultPartial emptyBlocksIR) "render" = false := by
  decide

/-- C9 amended: whenever the block map has no entry under the IR's entry
id, `generateCode` raises no error and emits exactly what it emits for an
IR with no blocks at all — only the factory wrapper; in particular no
render function (empty-bodied or otherwise) appears. -/
theorem c9_missing_entry_block_degrades (p : PartialOptions) (ir : SSAIR)
    (h : List.lookup ir.entry ir.blocks = none) :
    generateCode p ir = generateCode p emptyBlocksIR := by
  simp only [generateCode, generateFrom, emitBlocks, h, emptyBlocksIR, List.lookup]

/-- Witness for C9: a block map holding only block 3 while the entry id is
7 degrades to the factory-only emission. -/
theorem c9_missing_entry_block_degrades_witness :
    generateCode defaultPartial
        { blocks := [(3, { id := 3, instructions := [] })], entry := 7,
          vars := [], nextVarId := 0, nextBlockId := 0 } =
      generateCode defaultPartial emptyBlocksIR :=
  c9_missing_entry_block_degrades defaultPartial _ (by decide)

/-- C7: a compile call is a pure function of (source, options): running the
pipeline with the generator seeded by any instance state `g` with empty
rename map and static cache — the state of every freshly constructed
`CodeGenerator`, whatever residue `g.output`/`g.indent` hold, since
`generate()` resets both — yields exactly `compileWithOptions`; likewise
for `compile`.  Two invocations with identical `(source, options)` are the
same value, and no state flows between calls. -/
theorem c7_compile_is_deterministic (fuel : Nat) (s : String)
    (p : PartialOptions) (g : EmitState) (hv : g.varMap = [])
    (hc : g.staticCache = []) :
    compileWithOptionsFrom g fuel s p = compileWithOptions fuel s p ∧
    compileFrom g fuel s = compile fuel s := by
  obtain ⟨out, ind, vm, sc⟩ := g
  simp only at hv hc
  subst hv hc
  constructor
  · rfl
  · rfl

/-- Witness for C7: an instance state carrying junk output and indentation
produces the same compilation of `<div/>` as a fresh call. -/
theorem c7_compile_is_deterministic_witness :
    compileWithOptionsFrom junkEmitState 50 "<div/>" defaultPartial =
      compileWithOptions 50 "<div/>" defaultPartial ∧
    compileFrom junkEmitState 50 "<div/>" = compile 50 "<div/>" :=
  c7_compile_is_deterministic 50 "<div/>" defaultPartial junkEmitState rfl rfl

/-- `emit` never reads `options.target`. -/
theorem emitLine_ignores_target (t1 t2 : Target) (m i s : Bool) :
    emitLine ⟨t1, m, i, s⟩ = emitLine ⟨t2, m, i, s⟩ := by
  funext st c
  simp [emitLine]

/-- `getVarName` never reads `options.target`. -/
theorem getVarName_ignores_target (t1 t2 : Target) (m i s : Bool) :
    getVarName ⟨t1, m, i, s⟩ = getVarName ⟨t2, m, i, s⟩ := by
  funext st k
  cases hc : lookupA st.varMap k <;> simp [getVarName, hc]

theorem mapGetVarName_ignores_target (t1 t2 : Target) (m i s : Bool) :
    mapGetVarName ⟨t1, m, i, s⟩ = mapGetVarName ⟨t2, m, i, s⟩ := by
  funext l
  induction l with
  | nil => rfl
  | cons a rest ih =>
    funext st
    simp only [mapGetVarName, getVarName_ignores_target t1 t2 m i s, ih]

/-- No emitter reads `options.target`: the per-op emission is the same
function of the instruction and state for any two targets. -/
theorem emitInstruction_ignores_target (t1 t2 : Target) (m i s : Bool)
    (inst : Instr) (st : EmitState) :
    emitInstruction ⟨t1, m, i, s⟩ inst st = emitInstruction ⟨t2, m, i, s⟩ inst st := by
  cases h : inst.op <;>
    simp only [emitInstruction, h, emitAlloc, emitLoad, emitStore, emitCall,
      emitCreateElement, emitCreateText, emitSetProp, emitAppendChild,
      emitMount, emitPatch, emitReturn,
      getVarName_ignores_target t1 t2 m i s,
      mapGetVarName_ignores_target t1 t2 m i s,
      emitLine_ignores_target t1 t2 m i s]

theorem emitList_ignores_target (t1 t2 : Target) (m i s : Bool) :
    ∀ (l : List Instr) (st : EmitState),
      emitList ⟨t1, m, i, s⟩ l st = emitList ⟨t2, m, i, s⟩ l st
  | [], _ => rfl
  | inst :: rest, st => by
    simp only [emitList, emitInstruction_ignores_target t1 t2 m i s inst st]
    exact emitList_ignores_target t1 t2 m i s rest _

/-- `generate` never reads `options.target`, from any starting state. -/
theorem generateFrom_ignores_target (t1 t2 : Target) (m i s : Bool)
    (ir : SSAIR) (g : EmitState) :
    generateFrom ⟨t1, m, i, s⟩ g ir = generateFrom ⟨t2, m, i, s⟩ g ir := by
  simp only [generateFrom, emitHeader, emitFooter,
    emitLine_ignores_target t1 t2 m i s]
  cases hb : List.lookup ir.entry ir.blocks with
  | none => simp only [emitBlocks, hb]
  | some b =>
    simp only [emitBlocks, hb, emitLine_ignores_target t1 t2 m i s,
      emitList_ignores_target t1 t2 m i s b.instructions]

/-- C8: the target selector changes nothing: for every IR and every fixed
minify/inlineCache/staticOptimization configuration, `generateCode` with
target `js` and with target `wasm` return identical strings — no emitter
ever consults `options.target`. -/
theorem c8_target_is_irrelevant (ir : SSAIR) (m i s : Option Bool) :
    generateCode { target := some .js, minify := m, inlineCache := i,
                   staticOptimization := s } ir =
      generateCode { target := some .wasm, minify := m, inlineCache := i,
                     staticOptimization := s } ir := by
  simp only [generateCode, resolveOptions, Option.getD]
  exact congrArg Prod.fst (generateFrom_ignores_target .js .wasm _ _ _ ir emptyEmit)

/-- C4 amended: the DCE pass itself is sound with respect to the IR it
ran on: every `alloc`/`load`/`create_element`/`create_text` instruction
surviving `deadCodeElimination` has its destination referenced as an
argument somewhere in the pre-DCE IR.  (The subsequent constant-folding
pass can rename arguments to fresh `fold` aliases, so the destination may
be unreferenced in the final IR — the counterexample.) -/
theorem c4_dce_keeps_only_referenced (ir : SSAIR) (bid : Nat)
    (b : BasicBlock) (inst : Instr) (d : String)
    (hb : (bid, b) ∈ (deadCodeElimination ir).blocks)
    (hi : inst ∈ b.instructions)
    (hop : removableOp inst.op = true)
    (hd : inst.dest = some d) :
    d ∈ usedArgs ir.blocks := by
  unfold deadCodeElimination at hb
  simp only [List.mem_map] at hb
  obtain ⟨⟨bid0, b0⟩, _, heq⟩ := hb
  rw [Prod.mk.injEq] at heq
  obtain ⟨-, rfl⟩ := heq
  simp only [List.mem_filter] at hi
  obtain ⟨-, hkeep⟩ := hi
  simp only [dceKeep, hd, Bool.or_eq_true, decide_eq_true_eq] at hkeep
  rcases hkeep with (hmem | hcall) | hstore
  · exact List.mem_of_elem_eq_true hmem
  · rw [hcall] at hop; simp [removableOp] at hop
  · rw [hstore] at hop; simp [removableOp] at hop

/-- Witness for C4 amended: the self-referencing `create_element` of
`ssaSelfRef` survives DCE and its destination is indeed referenced. -/
theorem c4_dce_keeps_only_referenced_witness :
    "el0" ∈ usedArgs ssaSelfRef.blocks :=
  c4_dce_keeps_only_referenced ssaSelfRef 0
    { id := 0,
      instructions := [
        { op := .create_element, dest := some "el0", args := some ["el0"] },
        { op := .set_prop, args := some ["el0", "id", "el0"] }] }
    { op := .create_element, dest := some "el0", args := some ["el0"] } "el0"
    (by decide) (by decide) (by decide) rfl

/-- The characters of the short-name alphabet decode to their digit. -/
theorem shortChars_toNat :
    ∀ d : Fin 26, (shortChars.getD d.val ' ').toNat = 97 + d.val := by decide

/-- The do-while accumulator only ever receives appends on the right. -/
theorem shortNameGo_acc (f : Nat) :
    ∀ (n : Nat) (acc : List Char), shortNameGo f n acc = shortNameGo f n [] ++ acc := by
  induction f with
  | zero => intro n acc; rfl
  | succ f ih =>
    intro n acc
    simp only [shortNameGo]
    by_cases h : n / 26 > 0
    · simp only [if_pos h]
      rw [ih (n / 26) (shortChars.getD (n % 26) ' ' :: acc),
        ih (n / 26) [shortChars.getD (n % 26) ' ']]
      simp
    · simp only [if_neg h]
      rfl

theorem decode26_append_single (l : List Char) (c : Char) :
    decode26 (l ++ [c]) = decode26 l * 26 + (c.toNat - 97) := by
  simp [decode26, List.foldl_append]

/-- `decode26` is a left inverse of the base-26 rendering. -/
theorem decode26_shortNameGo :
    ∀ n f, n ≤ f → decode26 (shortNameGo (f + 1) n []) = n := by
  intro n
  induction n using Nat.strong_induction_on with
  | _ n ih =>
    intro f hf
    simp only [shortNameGo]
    by_cases h : n / 26 > 0
    · simp only [if_pos h]
      have h26 : 26 ≤ n := by omega
      have hn26 : n / 26 < n := Nat.div_lt_self (by omega) (by omega)
      obtain ⟨f', rfl⟩ : ∃ f', f = f' + 1 := ⟨f - 1, by omega⟩
      rw [shortNameGo_acc, decode26_append_single, ih (n / 26) hn26 f' (by omega)]
      have hc : (shortChars.getD (n % 26) ' ').toNat = 97 + n % 26 :=
        shortChars_toNat ⟨n % 26, Nat.mod_lt n (by omega)⟩
      rw [hc]
      omega
    · simp only [if_neg h]
      have hn : n < 26 := by omega
      have hc : (shortChars.getD (n % 26) ' ').toNat = 97 + n % 26 :=
        shortChars_toNat ⟨n % 26, Nat.mod_lt n (by omega)⟩
      simp only [decode26, List.foldl_cons, List.foldl_nil]
      rw [hc]
      omega

/-- The short-name sequence never repeats: `generateShortName` is
injective. -/
theorem generateShortName_injective {m n : Nat}
    (h : generateShortName m = generateShortName n) : m = n := by
  have hl : shortNameGo (m + 1) m [] = shortNameGo (n + 1) n [] :=
    congrArg String.data h
  have hm := decode26_shortNameGo m m le_rfl
  have hn := decode26_shortNameGo n n le_rfl
  rw [← hm, ← hn, hl]

/-- A successful lookup names an entry of the map. -/
theorem lookup_some_get {β : Type} :
    ∀ (vm : List (String × β)) (k : String) (v : β),
      List.lookup k vm = some v →
      ∃ j, ∃ hj : j < vm.length, vm.get ⟨j, hj⟩ = (k, v)
  | [], _, _, h => by simp [List.lookup] at h
  | (a, b) :: t, k, v, h => by
    rw [List.lookup] at h
    by_cases he : k = a
    · refine ⟨0, by simp, ?_⟩
      subst he
      simp only [beq_self_eq_true, if_pos] at h
      cases h
      rfl
    · have hb : (k == a) = false := beq_eq_false_iff_ne.mpr he
      rw [hb] at h
      simp only [Bool.false_eq_true, if_false] at h
      obtain ⟨j, hj, hget⟩ := lookup_some_get t k v h
      exact ⟨j + 1, by simpa using hj, by simpa using hget⟩

/-- One `getVarName` call preserves the rename-map invariant. -/
theorem getVarName_preserves_inv (o : CodeGenOptions) (st : EmitState)
    (k : String) (h : VarMapInv st.varMap) :
    VarMapInv (getVarName o st k).2.varMap := by
  unfold getVarName
  cases hc : lookupA st.varMap k with
  | some v => simpa using h
  | none =>
    cases hm : o.minify with
    | false => simpa using h
    | true =>
      simp only [VarMapInv] at h ⊢
      simp [List.map_append, List.range_succ, h]

/-- The rename map of any lookup sequence on a fresh instance satisfies
the invariant. -/
theorem runGetVarNames_inv (o : CodeGenOptions) (keys : List String) :
    VarMapInv (runGetVarNames o keys).varMap := by
  suffices h : ∀ (ks : List String) (st : EmitState), VarMapInv st.varMap →
      VarMapInv ((ks.foldl (fun st k => (getVarName o st k).2) st).varMap) by
    exact h keys emptyEmit (by simp [VarMapInv, emptyEmit])
  intro ks
  induction ks with
  | nil => intro st h; exact h
  | cons k rest ih =>
    intro st h
    exact ih _ (getVarName_preserves_inv o st k h)

/-- Under the invariant, the entry at index `j` holds the `j`-th short
name. -/
theorem inv_value_at (vm : List (String × String)) (h : VarMapInv vm)
    (j : Nat) (hj : j < vm.length) :
    (vm.get ⟨j, hj⟩).2 = generateShortName j := by
  have h' := congrArg (fun l => l.get? j) h
  simp only [List.get?_map] at h'
  rw [List.get?_eq_get hj, List.get?_range (by simpa using hj)] at h'
  simpa using h'

/-- C6: within one generation call, the minifying rename is injective —
two lookups that return renamed values for distinct original names return
distinct short names (the `varMap` of a fresh instance maps its `j`-th
distinct key to `generateShortName j`, and that sequence never repeats). -/
theorem c6_minify_renaming_injective (o : CodeGenOptions) (keys : List String)
    (k1 k2 v1 v2 : String)
    (h1 : lookupA (runGetVarNames o keys).varMap k1 = some v1)
    (h2 : lookupA (runGetVarNames o keys).varMap k2 = some v2)
    (hk : k1 ≠ k2) : v1 ≠ v2 := by
  have hinv := runGetVarNames_inv o keys
  obtain ⟨j1, hj1, he1⟩ := lookup_some_get _ _ _ h1
  obtain ⟨j2, hj2, he2⟩ := lookup_some_get _ _ _ h2
  have hv1 : v1 = generateShortName j1 := by
    rw [← inv_value_at _ hinv j1 hj1, he1]
  have hv2 : v2 = generateShortName j2 := by
    rw [← inv_value_at _ hinv j2 hj2, he2]
  intro hveq
  apply hk
  have hj : j1 = j2 := by
    apply generateShortName_injective
    rw [← hv1, ← hv2, hveq]
  subst hj
  have hpair : (k1, v1) = (k2, v2) := he1.symm.trans he2
  exact ((Prod.mk.injEq ..).mp hpair).1

/-- Witness for C6: looking up `x` then `y` yields `a` and `b`, and the
theorem instantiated there separates them. -/
theorem c6_minify_renaming_injective_witness : ("a" : String) ≠ "b" :=
  c6_minify_renaming_injective (resolveOptions defaultPartial) ["x", "y"]
    "x" "y" "a" "b" (by decide) (by decide) (by decide)

/-- Past end-of-input, `advance` returns `undefined` forever, so the
attribute brace scan's depth never changes and the loop never exits: no
amount of fuel completes it. -/
theorem braceScan_stuck_at_eof :
    ∀ (f : Nat) (st : TokSt) (d : Nat) (acc : String),
      st.src.length ≤ st.pos → d ≠ 0 → braceScan f st d acc = none := by
  intro f
  induction f with
  | zero => intro st d acc _ _; rfl
  | succ f ih =>
    intro st d acc hpos hd
    have hc : st.src.get? st.pos = none := List.get?_eq_none.mpr hpos
    simp only [braceScan, TokSt.advance, hc, if_neg hd]
    simp only [reduceCtorEq, if_false, if_neg]
    rw [if_pos (Nat.pos_of_ne_zero hd)]
    exact ih _ d _ (by simpa using Nat.le_succ_of_le hpos) hd

theorem c10_braceScan_all_fuel :
    ∀ f, braceScan f { src := c10src, pos := 8, line := 1, col := 9 } 1 "" = none := by
  intro f
  match f with
  | 0 => rfl
  | u + 1 =>
    exact braceScan_stuck_at_eof u
      { src := c10src, pos := 9, line := 1, col := 10 } 1 "x"
      (by decide) (by decide)

theorem c10_readAttribute_all_fuel :
    ∀ f, readAttribute f { src := c10src, pos := 5, line := 1, col := 6 } = none := by
  intro f
  have e : readAttribute f { src := c10src, pos := 5, line := 1, col := 6 } =
      (braceScan f { src := c10src, pos := 8, line := 1, col := 9 } 1 "").bind
        (fun r => some ((("a" : String), AttrVal.s ("\x7b" ++ r.1 ++ "\x7d")), r.2)) := rfl
  rw [e, c10_braceScan_all_fuel f]
  rfl

theorem c10_attrsLoop_all_fuel :
    ∀ f, attrsLoop f { src := c10src, pos := 5, line := 1, col := 6 } [] = none := by
  intro f
  match f with
  | 0 => rfl
  | u + 1 =>
    have e : attrsLoop (u + 1) { src := c10src, pos := 5, line := 1, col := 6 } [] =
        (readAttribute u { src := c10src, pos := 5, line := 1, col := 6 }).bind
          (fun r => attrsLoop u r.2.skipWS (setAssoc [] r.1.1 r.1.2)) := rfl
    rw [e, c10_readAttribute_all_fuel u]
    rfl

theorem c10_readOpenTag_all_fuel :
    ∀ f, readOpenTag f { src := c10src, pos := 0, line := 1, col := 1 } = none := by
  intro f
  have e : readOpenTag f { src := c10src, pos := 0, line := 1, col := 1 } =
      (attrsLoop f { src := c10src, pos := 5, line := 1, col := 6 } []).bind
        (fun r =>
          let st5 := r.2
          let (ty, st6) :=
            if st5.peek = some '/' then (TokType.tSelfClose, st5.adv)
            else (TokType.tOpen, st5)
          let st7 := if st6.peek = some '>' then st6.adv else st6
          some ({ type := ty, value := .tag "div" r.1, loc := ⟨1, 1, 1, 1⟩ }, st7)) := rfl
  rw [e, c10_attrsLoop_all_fuel f]
  rfl

theorem c10_mainGo_all_fuel :
    ∀ f, mainGo f 10 { src := c10src, pos := 0, line := 1, col := 1 } [] = none := by
  intro f
  have e : mainGo f 10 { src := c10src, pos := 0, line := 1, col := 1 } [] =
      (readOpenTag f { src := c10src, pos := 0, line := 1, col := 1 }).bind
        (fun r => mainGo f 9 r.2 ([] ++ [r.1])) := rfl
  rw [e, c10_readOpenTag_all_fuel f]
  rfl

/-- C10: tokenization does **not** terminate on every finite input: on
`<div a={x` the attribute brace scan never completes, whatever the step
budget — `readAttribute`'s `while (depth > 0)` loop never rechecks `pos`,
and past end-of-input `advance()` returns `undefined` without ever closing
the brace (`readExpression` has the `pos < length` bound; this loop does
not). -/
theorem c10_tokenize_diverges_on_unclosed_attr_brace :
    ∀ fuel, tokenize fuel "<div a=\x7bx" = none := by
  intro fuel
  have e : tokenize fuel "<div a=\x7bx" =
      (mainGo fuel 10 { src := c10src, pos := 0, line := 1, col := 1 } []).map
        (fun r => r.1 ++ [{ type := .tEof, value := .str "", loc := r.2.getLoc }]) := rfl
  rw [e, c10_mainGo_all_fuel fuel]
  rfl

theorem dests_append (l1 l2 : List Instr) :
    dests (l1 ++ l2) = dests l1 ++ dests l2 := by
  induction l1 with
  | nil => rfl
  | cons i l ih => simp [dests, ih]

/-- An instruction without arguments satisfies the argument discipline
under any prior set. -/
theorem instrArgsOk_of_no_args (p : List String) (i : Instr)
    (h : i.args = none) : instrArgsOk p i = true := by
  simp [instrArgsOk, h]

theorem ssaOkGo_append (l1 : List Instr) :
    ∀ (p : List String) (l2 : List Instr),
      ssaOkGo p (l1 ++ l2) = (ssaOkGo p l1 && ssaOkGo (p ++ dests l1) l2) := by
  induction l1 with
  | nil => intro p l2; simp [ssaOkGo, dests]
  | cons i l ih =>
    intro p l2
    simp only [List.cons_append, ssaOkGo, List.append_eq, ih, dests,
      List.append_assoc, Bool.and_assoc]

theorem mem_getLast?_filtered {l : List String} {x : String}
    (h : l.getLast? = some x) : x ∈ l := by
  induction l with
  | nil => simp at h
  | cons a t ih =>
    cases t with
    | nil => simp [List.getLast?] at h; simp [h]
    | cons b u =>
      rw [List.getLast?_cons_cons] at h
      exact List.mem_cons_of_mem a (ih h)

theorem contains_of_mem {l : List String} {x : String} (h : x ∈ l) :
    l.contains x = true :=
  List.elem_eq_true_of_mem h

theorem goodExt_of_instrs_eq {st st' : BSt} (h : st'.instrs = st.instrs) :
    GoodExt st st' :=
  ⟨[], by simp [h], rfl⟩

theorem goodExt_trans {st1 st2 st3 : BSt} (h12 : GoodExt st1 st2)
    (h23 : GoodExt st2 st3) : GoodExt st1 st3 := by
  obtain ⟨d1, he1, ho1⟩ := h12
  obtain ⟨d2, he2, ho2⟩ := h23
  refine ⟨d1 ++ d2, by rw [he2, he1, List.append_assoc], ?_⟩
  rw [ssaOkGo_append, ho1, Bool.true_and]
  rw [he1, dests_append] at ho2
  exact ho2

theorem goodExt_emit {st : BSt} {i : Instr}
    (h : instrArgsOk (dests st.instrs) i = true) : GoodExt st (st.emit i) :=
  ⟨[i], rfl, by simp [ssaOkGo, h]⟩

theorem mem_dests_of_goodExt {st st' : BSt} (h : GoodExt st st') {x : String}
    (hx : x ∈ dests st.instrs) : x ∈ dests st'.instrs := by
  obtain ⟨d, he, -⟩ := h
  rw [he, dests_append]
  exact List.mem_append_left _ hx

theorem mem_dests_emit {st : BSt} {i : Instr} {d : String}
    (h : i.dest = some d) : d ∈ dests (st.emit i).instrs := by
  show d ∈ dests (st.instrs ++ [i])
  rw [dests_append]
  refine List.mem_append_right _ ?_
  simp [dests, destL, h]

/-- `visitValue` emits exactly one argument-free instruction whose
destination is the returned name. -/
theorem visitValue_spec (v : AttrVal) (st : BSt) :
    ∃ i, (visitValue v st).2.instrs = st.instrs ++ [i] ∧ i.args = none ∧
      i.dest = some (visitValue v st).1 := by
  cases v with
  | s str =>
    simp only [visitValue, BSt.newVar, BSt.emit]
    split
    · exact ⟨_, rfl, rfl, rfl⟩
    · exact ⟨_, rfl, rfl, rfl⟩
  | b b => exact ⟨_, rfl, rfl, rfl⟩

/-- The attribute loop of `visitElement` only emits well-referenced
instructions. -/
theorem visitAttrs_goodExt :
    ∀ (attrs : List (String × AttrVal)) (dest : String) (st : BSt),
      dest ∈ dests st.instrs → GoodExt st (visitAttrs dest attrs st) := by
  intro attrs
  induction attrs with
  | nil => intro dest st _; exact goodExt_of_instrs_eq rfl
  | cons kv rest ih =>
    obtain ⟨key, v⟩ := kv
    intro dest st hdest
    obtain ⟨vi, hvi, hargs, hdst⟩ := visitValue_spec v st
    have h1 : GoodExt st (visitValue v st).2 := by
      refine ⟨[vi], hvi, ?_⟩
      simp [ssaOkGo, instrArgsOk_of_no_args _ _ hargs]
    have hdest1 : dest ∈ dests (visitValue v st).2.instrs :=
      mem_dests_of_goodExt h1 hdest
    have hval1 : (visitValue v st).1 ∈ dests (visitValue v st).2.instrs := by
      rw [hvi, dests_append]
      refine List.mem_append_right _ ?_
      simp [dests, destL, hdst]
    have h2 : GoodExt (visitValue v st).2
        ((visitValue v st).2.emit
          { op := .set_prop, args := some [dest, key, (visitValue v st).1],
            metadata := some { isStatic := some (attrValIsStatic v),
                               key := some key } }) := by
      apply goodExt_emit
      simp only [instrArgsOk, Option.getD, List.enum, List.enumFrom, List.all_cons,
        List.all_nil, Bool.and_true, Bool.and_eq_true, Bool.or_eq_true]
      refine ⟨Or.inr (contains_of_mem hdest1), Or.inl (by decide),
        Or.inr (contains_of_mem hval1)⟩
    have hdest2 : dest ∈ dests ((visitValue v st).2.emit _).instrs :=
      mem_dests_of_goodExt h2 hdest1
    have h3 := ih dest _ hdest2
    show GoodExt st (visitAttrs dest ((key, v) :: rest) st)
    simp only [visitAttrs]
    exact goodExt_trans (goodExt_trans h1 h2) h3

/-- Every visit step of the SSA builder extends the instruction list with
instructions that reference only prior destinations or literal tag/key
positions (fragment-free ASTs; the Program/Fragment `results` lists are
the only place an empty value name could leak into arguments, and only
Fragment does so unguarded). -/
theorem visit_goodExt : ∀ fuel : Nat,
    (∀ (ast : ASTNode) (st : BSt) (r : String) (st' : BSt), NoFrag ast →
      visitNode fuel ast st = some (r, st') →
      GoodExt st st' ∧ (r = "" ∨ r ∈ dests st'.instrs)) ∧
    (∀ (l : List ASTNode) (st : BSt) (rs : List String) (st' : BSt),
      (∀ c ∈ l, NoFrag c) → visitList fuel l st = some (rs, st') →
      GoodExt st st' ∧ ∀ x ∈ rs, x = "" ∨ x ∈ dests st'.instrs) ∧
    (∀ (l : List ASTNode) (dest : String) (st : BSt) (st' : BSt),
      (∀ c ∈ l, NoFrag c) → dest ∈ dests st.instrs →
      visitChildren fuel dest l st = some st' → GoodExt st st') := by
  intro fuel
  induction fuel with
  | zero =>
    refine ⟨?_, ?_, ?_⟩
    · intro ast st r st' _ hv; simp [visitNode] at hv
    · intro l st rs st' _ hv; simp [visitList] at hv
    · intro l dest st st' _ _ hv; simp [visitChildren] at hv
  | succ f ih =>
    obtain ⟨ihN, ihL, ihC⟩ := ih
    refine ⟨?_, ?_, ?_⟩
    · intro ast st r st' hnf hv
      cases ast with
      | program cs =>
        cases hnf with
        | program hcs =>
          simp only [visitNode, Option.map_eq_some'] at hv
          obtain ⟨⟨rs, st2⟩, hL, heq⟩ := hv
          simp only [Prod.mk.injEq] at heq
          obtain ⟨hr, hst⟩ := heq
          subst hst
          obtain ⟨hge, hmem⟩ := ihL cs st rs st2 hcs hL
          refine ⟨hge, ?_⟩
          cases hgl : (rs.filter (· ≠ "")).getLast? with
          | none =>
            left
            rw [← hr, hgl]
            rfl
          | some x =>
            have hx := mem_getLast?_filtered hgl
            rw [List.mem_filter] at hx
            rcases hmem x hx.1 with he | hm
            · exfalso
              have h2 := hx.2
              simp [he] at h2
            · right
              rw [← hr, hgl]
              simpa using hm
      | element tag attrs isStat cs =>
        cases hnf with
        | element hcs =>
          simp only [visitNode, BSt.newVar] at hv
          by_cases htag : tag = ""
          · rw [if_pos htag] at hv; cases hv
          · rw [if_neg htag, Option.map_eq_some'] at hv
            obtain ⟨st4, hC, heq⟩ := hv
            simp only [Prod.mk.injEq] at heq
            obtain ⟨hr, hst⟩ := heq
            subst hst
            -- the emitted create_element instruction
            have hge1 : GoodExt st
                (BSt.emit { varCounter := st.varCounter + 1, instrs := st.instrs }
                  { op := .create_element, dest := some ("el" ++ toString st.varCounter),
                    args := some [tag],
                    metadata := some { tag := some tag, isStatic := isStat } }) := by
              apply goodExt_emit
              simp only [instrArgsOk, Option.getD, List.enum, List.enumFrom,
                List.all_cons, List.all_nil, Bool.and_true, Bool.and_eq_true,
                Bool.or_eq_true]
              exact Or.inl (by decide)
            have hdest1 : ("el" ++ toString st.varCounter) ∈
                dests (BSt.emit { varCounter := st.varCounter + 1, instrs := st.instrs }
                  { op := .create_element, dest := some ("el" ++ toString st.varCounter),
                    args := some [tag],
                    metadata := some { tag := some tag, isStatic := isStat } }).instrs :=
              mem_dests_emit rfl
            have hge2 := visitAttrs_goodExt attrs ("el" ++ toString st.varCounter) _ hdest1
            have hdest2 := mem_dests_of_goodExt hge2 hdest1
            have hge3 := ihC cs ("el" ++ toString st.varCounter) _ st4 hcs hdest2 hC
            refine ⟨goodExt_trans (goodExt_trans hge1 hge2) (by exact hge3), Or.inr ?_⟩
            rw [← hr]
            exact mem_dests_of_goodExt (by exact hge3) (mem_dests_of_goodExt hge2 hdest1)
      | component tag attrs cs =>
        simp only [visitNode, BSt.newVar, BSt.emit, Option.some.injEq,
          Prod.mk.injEq] at hv
        obtain ⟨hr, hst⟩ := hv
        subst hst
        subst hr
        refine ⟨⟨_, by rw [List.append_assoc], ?_⟩, Or.inr ?_⟩
        · simp only [ssaOkGo, instrArgsOk, Option.getD, List.enum, List.enumFrom,
            List.all_cons, List.all_nil, Bool.and_true, Bool.and_eq_true,
            Bool.or_eq_true, destL]
          exact ⟨trivial, Or.inl (by decide),
            Or.inr (contains_of_mem (List.mem_append_right _ (by simp)))⟩
        · rw [dests_append]
          exact List.mem_append_right _ (by simp [dests, destL])
      | text v =>
        simp only [visitNode, BSt.newVar, BSt.emit, Option.some.injEq,
          Prod.mk.injEq] at hv
        obtain ⟨hr, hst⟩ := hv
        subst hst
        subst hr
        refine ⟨⟨_, rfl, ?_⟩, Or.inr ?_⟩
        · simp [ssaOkGo, instrArgsOk]
        · rw [dests_append]
          exact List.mem_append_right _ (by simp [dests, destL])
      | expression e =>
        simp only [visitNode, BSt.newVar, BSt.emit, Option.some.injEq,
          Prod.mk.injEq] at hv
        obtain ⟨hr, hst⟩ := hv
        subst hst
        subst hr
        refine ⟨⟨_, rfl, ?_⟩, Or.inr ?_⟩
        · simp [ssaOkGo, instrArgsOk]
        · rw [dests_append]
          exact List.mem_append_right _ (by simp [dests, destL])
      | fragment cs => cases hnf
    · intro l st rs st' hnf hv
      cases l with
      | nil =>
        simp only [visitList, Option.some.injEq, Prod.mk.injEq] at hv
        obtain ⟨hrs, hst⟩ := hv
        subst hst
        refine ⟨goodExt_of_instrs_eq rfl, ?_⟩
        rw [← hrs]
        simp
      | cons c cs =>
        simp only [visitList, Option.bind_eq_some, Option.map_eq_some'] at hv
        obtain ⟨⟨r1, st1⟩, hN, ⟨rs2, st2⟩, hL, heq⟩ := hv
        simp only [Prod.mk.injEq] at heq
        obtain ⟨hrs, hst⟩ := heq
        subst hst
        obtain ⟨hge1, hr1⟩ := ihN c st r1 st1 (hnf c (by simp)) hN
        obtain ⟨hge2, hmem2⟩ := ihL cs st1 rs2 st2 (fun x hx => hnf x (by simp [hx])) hL
        refine ⟨goodExt_trans hge1 hge2, ?_⟩
        intro x hx
        rw [← hrs] at hx
        rcases List.mem_cons.mp hx with hx1 | hx2
        · subst hx1
          rcases hr1 with he | hm
          · exact Or.inl he
          · exact Or.inr (mem_dests_of_goodExt hge2 hm)
        · exact hmem2 x hx2
    · intro l dest st st' hnf hdest hv
      cases l with
      | nil =>
        simp only [visitChildren, Option.some.injEq] at hv
        subst hv
        exact goodExt_of_instrs_eq rfl
      | cons c cs =>
        simp only [visitChildren, Option.bind_eq_some] at hv
        obtain ⟨⟨cv, st1⟩, hN, hrest⟩ := hv
        obtain ⟨hge1, hcv⟩ := ihN c st cv st1 (hnf c (by simp)) hN
        by_cases hne : cv = ""
        · simp only [hne, ne_eq, not_true_eq_false, if_neg, ite_false] at hrest
          have hdest1 := mem_dests_of_goodExt hge1 hdest
          exact goodExt_trans hge1
            (ihC cs dest st1 st' (fun x hx => hnf x (by simp [hx])) hdest1 hrest)
        · have hcv' : cv ∈ dests st1.instrs := by
            rcases hcv with he | hm
            · exact absurd he hne
            · exact hm
          rw [if_pos hne] at hrest
          have hdest1 := mem_dests_of_goodExt hge1 hdest
          have hgeApp : GoodExt st1
              (st1.emit { op := .append_child, args := some [dest, cv] }) := by
            apply goodExt_emit
            simp only [instrArgsOk, Option.getD, List.enum, List.enumFrom,
              List.all_cons, List.all_nil, Bool.and_true, Bool.and_eq_true,
              Bool.or_eq_true]
            exact ⟨Or.inr (contains_of_mem hdest1), Or.inr (contains_of_mem hcv')⟩
          have hdest2 := mem_dests_of_goodExt hgeApp hdest1
          exact goodExt_trans hge1 (goodExt_trans hgeApp
            (ihC cs dest _ st' (fun x hx => hnf x (by simp [hx])) hdest2 hrest))

/-- C2 amended: before the optimizer runs the invariant does hold — for
every fragment-free AST (the parser never constructs a Fragment node),
every argument name of every instruction of the IR that `build` assembles
prior to `optimize()` is either an earlier instruction's destination in
the same block or a literal tag/key string.  The constant-folding pass
then rewrites arguments to fresh `fold` aliases that are no instruction's
destination, which is the counterexample to the claim as stated. -/
theorem c2_preopt_ssa_invariant (fuel : Nat) (ast : ASTNode) (ir : SSAIR)
    (hnf : NoFrag ast) (h : buildSSAPreOpt fuel ast = some ir) :
    irSSAOk ir = true := by
  unfold buildSSAPreOpt at h
  cases hv : visitNode fuel ast { varCounter := 0, instrs := [] } with
  | none => rw [hv] at h; cases h
  | some p =>
    obtain ⟨r, st'⟩ := p
    rw [hv] at h
    simp only [Option.some.injEq] at h
    subst h
    obtain ⟨⟨d, hd, hok⟩, -⟩ := (visit_goodExt fuel).1 ast _ r st' hnf hv
    simp only [irSSAOk, List.all_cons, List.all_nil, Bool.and_true]
    show ssaOkGo [] st'.instrs = true
    rw [hd]
    simpa using hok

/-- Witness for C2 amended: the pre-optimization IR of `<div id="x"/>`
satisfies the invariant. -/
theorem c2_preopt_ssa_invariant_witness : irSSAOk ssaPreDivIdX = true :=
  c2_preopt_ssa_invariant 50 astDivIdX ssaPreDivIdX
    (NoFrag.program (by
      intro c hc
      simp only [astDivIdX, List.mem_singleton] at hc
      subst hc
      exact NoFrag.element (by intro c hc; simp at hc)))
    (by decide)

end Dominator

